import Mathlib

/-!
Verification development for the `pwru` packet tracer (`src/main.go`).

The program is a single straight-line `main`:
flag parsing → rlimits → signal context → catalog discovery →
object loading → `ConfigBPFMap` → the kprobe attach loop →
perf reader construction → the event consume loop.

We shallowly embed the two loops (attach, consume), the flag defaults,
and the ordering of `ConfigBPFMap` relative to the attach loop, and
prove the frozen claims about them.
-/

namespace Pwru

/-! ## Attach phase (src/main.go lines 115-154)

`link.Kprobe(name, fn)` can succeed, fail with an error wrapping
`os.ErrNotExist` (symbol absent from this kernel), or fail with any
other error.  The outcome of each attachment attempt is an oracle
indexed by the symbol name. -/

/-- Outcome of a `link.Kprobe(name, fn)` call for a given symbol. -/
inductive AttachOutcome
  | ok
  | errNotExist
  | errOther
  deriving DecidableEq, Repr

/-- The five kernel-resident probe programs `objs.KprobeSkb1 .. KprobeSkb5`
(both object sets expose the same five; which set was loaded does not matter
to the attach loop). -/
inductive Kprobe
  | skb1
  | skb2
  | skb3
  | skb4
  | skb5
  deriving DecidableEq, Repr

/-- One entry of the function catalog `funcs` (`map[string]int` in Go):
a kernel symbol name and the argument position of its skb parameter.
Go's `int` is modelled as `Int`. -/
structure FuncEntry where
  name : String
  pos : Int
  deriving DecidableEq, Repr

/-- The `switch pos` at src/main.go lines 120-134: cases 1..5 select
`kprobe1..kprobe5`; the `default` branch runs `ignored += 1; continue`,
so no probe is selected (the initial `fn := kprobe1` is dead on that
path).  Go evaluates switch cases in order, modelled as sequential
equality tests. -/
def selectKprobe (pos : Int) : Option Kprobe :=
  if pos = 1 then some Kprobe.skb1
  else if pos = 2 then some Kprobe.skb2
  else if pos = 3 then some Kprobe.skb3
  else if pos = 4 then some Kprobe.skb4
  else if pos = 5 then some Kprobe.skb5
  else none

/-- The argument position each probe variant is built for
(`KprobeSkbK` reads the skb from argument `K`). -/
def variantIndex : Kprobe → Int
  | Kprobe.skb1 => 1
  | Kprobe.skb2 => 2
  | Kprobe.skb3 => 3
  | Kprobe.skb4 => 4
  | Kprobe.skb5 => 5

/-- Observable events of the attach loop, in program order:
`ignoreEntry` is the `default: ignored += 1; continue` branch,
`poll` is the `select { case <-ctx.Done(): return; default: }`
(recording what the poll observed), `attempt` is a `link.Kprobe` call
with the selected variant. -/
inductive AEvent
  | ignoreEntry (idx : Nat)
  | poll (done : Bool)
  | attempt (idx : Nat) (k : Kprobe)
  deriving DecidableEq, Repr

/-- Mutable state of the attach loop: the `ignored` counter, the
progress bar count (`bar.Increment()`), the stack of deferred
`kp.Close()` handles (catalog indices of successful attaches, in attach
order), the attempts made so far, and the event trace. -/
structure AttachState where
  ignored : Nat
  bar : Nat
  attached : List Nat
  attempts : List (Nat × Kprobe)
  trace : List AEvent
  deriving DecidableEq, Repr

/-- How the attach loop ended: fell off the end of the catalog
(`completed`), `return` on `ctx.Done()` (`cancelled`), or
`log.Fatalf` on a non-`ErrNotExist` attachment error (`fatal`,
carrying the failing symbol name). -/
inductive ExitKind
  | completed
  | cancelled
  | fatal (name : String)
  deriving DecidableEq, Repr

/-- Result of the attach phase.  `released` records which deferred
`kp.Close()` calls have run by the time the modelled scope ends:
on the cancellation `return`, Go unwinds the defer stack (reverse
attach order); `log.Fatalf` calls `os.Exit`, which terminates the
process without running any deferred call; on normal loop completion
`main` continues past the loop, so nothing has been released yet at
that point. -/
structure AttachResult where
  exitk : ExitKind
  ignored : Nat
  bar : Nat
  attached : List Nat
  attempts : List (Nat × Kprobe)
  trace : List AEvent
  released : List Nat
  deriving DecidableEq, Repr

/-- The cancellation signal as the attach loop observes it.  The signal
is raised at some moment and stays raised; we index moments by the
number of attempts already made: `pollDone (some c) n` is the value the
`select` reads when `n` attempts have completed and the signal fired
once `c` attempts were done.  `none` means the signal never fires. -/
def pollDone : Option Nat → Nat → Bool
  | none, _ => false
  | some c, n => decide (c ≤ n)

/-- The attach loop, src/main.go lines 118-152, one catalog entry at a
time (`idx` is the entry's index in the iteration order).  Per entry:
the `switch pos` (out-of-range → `ignored += 1; continue`), then the
cancellation `select` (`return` if done), then `link.Kprobe` followed
unconditionally by `bar.Increment()`; on success a `kp.Close()` is
deferred; `os.ErrNotExist` increments `ignored` and continues; any
other error is `log.Fatalf` (process exit, no defers run). -/
def attachLoopAux (res : String → AttachOutcome) (cancelAt : Option Nat) :
    Nat → AttachState → List FuncEntry → AttachResult
  | _, st, [] =>
    { exitk := ExitKind.completed, ignored := st.ignored, bar := st.bar,
      attached := st.attached, attempts := st.attempts, trace := st.trace,
      released := [] }
  | idx, st, e :: rest =>
    match selectKprobe e.pos with
    | none =>
      attachLoopAux res cancelAt (idx + 1)
        { st with ignored := st.ignored + 1,
                  trace := st.trace ++ [AEvent.ignoreEntry idx] } rest
    | some k =>
      match pollDone cancelAt st.attempts.length with
      | true =>
        { exitk := ExitKind.cancelled, ignored := st.ignored, bar := st.bar,
          attached := st.attached, attempts := st.attempts,
          trace := st.trace ++ [AEvent.poll true],
          released := st.attached.reverse }
      | false =>
        match res e.name with
        | AttachOutcome.ok =>
          attachLoopAux res cancelAt (idx + 1)
            { ignored := st.ignored, bar := st.bar + 1,
              attached := st.attached ++ [idx],
              attempts := st.attempts ++ [(idx, k)],
              trace := st.trace ++ [AEvent.poll false, AEvent.attempt idx k] } rest
        | AttachOutcome.errNotExist =>
          attachLoopAux res cancelAt (idx + 1)
            { ignored := st.ignored + 1, bar := st.bar + 1,
              attached := st.attached,
              attempts := st.attempts ++ [(idx, k)],
              trace := st.trace ++ [AEvent.poll false, AEvent.attempt idx k] } rest
        | AttachOutcome.errOther =>
          { exitk := ExitKind.fatal e.name, ignored := st.ignored,
            bar := st.bar + 1,
            attached := st.attached,
            attempts := st.attempts ++ [(idx, k)],
            trace := st.trace ++ [AEvent.poll false, AEvent.attempt idx k],
            released := [] }

/-- Initial attach-loop state (`ignored := 0`, everything empty). -/
def initAttachState : AttachState :=
  { ignored := 0, bar := 0, attached := [], attempts := [], trace := [] }

/-- The whole attach phase over a catalog. -/
def attachLoop (res : String → AttachOutcome) (cancelAt : Option Nat)
    (funcs : List FuncEntry) : AttachResult :=
  attachLoopAux res cancelAt 0 initAttachState funcs

/-! ### Spec-side characterisations of the attach loop (for the
refinement-style claims): the attempts an uninterrupted run makes, and
the entries it counts ignored. -/

/-- Attempt list the spec expects from an uninterrupted, non-fatal run
starting at catalog index `idx`: one attempt per in-range entry, with
the variant selected from its position; out-of-range entries produce no
attempt. -/
def attachAttemptsSpec (idx : Nat) : List FuncEntry → List (Nat × Kprobe)
  | [] => []
  | e :: rest =>
    match selectKprobe e.pos with
    | some k => (idx, k) :: attachAttemptsSpec (idx + 1) rest
    | none => attachAttemptsSpec (idx + 1) rest

/-- Ignored count the spec expects from an uninterrupted, non-fatal
run: entries whose position selects no variant, plus in-range entries
whose symbol is not present. -/
def ignoredSpec (res : String → AttachOutcome) : List FuncEntry → Nat
  | [] => 0
  | e :: rest =>
    match selectKprobe e.pos with
    | some _ =>
      (if res e.name = AttachOutcome.errNotExist then 1 else 0) + ignoredSpec res rest
    | none => 1 + ignoredSpec res rest

/-- Scanner over a trace: `true` iff every `attempt` event is
immediately preceded by a `poll` that observed the signal unraised
(the flag records whether the previous event was such a poll). -/
def pollGuardAux : Bool → List AEvent → Bool
  | _, [] => true
  | ok, AEvent.attempt _ _ :: rest => ok && pollGuardAux false rest
  | _, AEvent.poll false :: rest => pollGuardAux true rest
  | _, AEvent.poll true :: rest => pollGuardAux false rest
  | _, AEvent.ignoreEntry _ :: rest => pollGuardAux false rest

/-- Every attempt in the trace is immediately preceded by a poll that
observed the cancellation signal unraised. -/
def pollGuard (t : List AEvent) : Bool :=
  pollGuardAux false t

/-- Traces the attach loop can produce: concatenations of
ignored-entry events, polls that saw the signal raised, and polls
that saw it unraised each immediately followed by its attempt. -/
inductive GoodTrace : List AEvent → Prop
  | nil : GoodTrace []
  | ign (i : Nat) {t : List AEvent} : GoodTrace t → GoodTrace (AEvent.ignoreEntry i :: t)
  | pollT {t : List AEvent} : GoodTrace t → GoodTrace (AEvent.poll true :: t)
  | pollF (i : Nat) (k : Kprobe) {t : List AEvent} :
      GoodTrace t → GoodTrace (AEvent.poll false :: AEvent.attempt i k :: t)

/-! ## Filter flags (src/main.go lines 41-53)

`flag.Int("filter-mark", 0, ...)` and friends: each flag has a default
used when the flag is absent from the command line; the program keeps
only the parsed value, not whether the flag was supplied. -/

/-- Which filter/output flags the command line supplies, and with what
value (`none` = flag absent). -/
structure CmdArgs where
  filterMark : Option Int
  filterProto : Option String
  filterSrcIP : Option String
  filterDstIP : Option String
  filterSrcPort : Option String
  filterDstPort : Option String
  outputRelativeTS : Option Bool
  outputMeta : Option Bool
  outputTuple : Option Bool
  outputSkb : Option Bool
  deriving DecidableEq, Repr

/-- The `pwru.Flags` values after `flag.Parse()`: what the rest of the
program can observe (the pointed-to values; set-ness is not recorded
anywhere). -/
structure Flags where
  filterMark : Int
  filterProto : String
  filterSrcIP : String
  filterDstIP : String
  filterSrcPort : String
  filterDstPort : String
  outputRelativeTS : Bool
  outputMeta : Bool
  outputTuple : Bool
  outputSkb : Bool
  deriving DecidableEq, Repr

/-- Flag parsing with the defaults of src/main.go lines 42-51:
`filter-mark` defaults to `0`, the string flags to `""`, the output
flags to `false`; a supplied flag overrides its default. -/
def parseFlags (a : CmdArgs) : Flags :=
  { filterMark := a.filterMark.getD 0,
    filterProto := a.filterProto.getD "",
    filterSrcIP := a.filterSrcIP.getD "",
    filterDstIP := a.filterDstIP.getD "",
    filterSrcPort := a.filterSrcPort.getD "",
    filterDstPort := a.filterDstPort.getD "",
    outputRelativeTS := a.outputRelativeTS.getD false,
    outputMeta := a.outputMeta.getD false,
    outputTuple := a.outputTuple.getD false,
    outputSkb := a.outputSkb.getD false }

/-- An empty command line: every flag left unset. -/
def noArgs : CmdArgs :=
  { filterMark := none, filterProto := none, filterSrcIP := none,
    filterDstIP := none, filterSrcPort := none, filterDstPort := none,
    outputRelativeTS := none, outputMeta := none, outputTuple := none,
    outputSkb := none }

/-- The command line `--filter-mark 0`: mark filtering requested with
value zero, everything else unset. -/
def markZeroArgs : CmdArgs :=
  { noArgs with filterMark := some 0 }

/-- Modelled from the spec: the mark matcher is realised by
`pwru.ConfigBPFMap` (package `internal/pwru`) and the kernel-resident
filter in `bpf/kprobe_pwru.c`, neither of which is under `src/`.
Spec §4.3: "An unset flag means match any value (wildcard), never
match zero/absent."  Since the flag default (src/main.go line 42)
makes an unset `--filter-mark` reach the matcher as the value `0`,
a configured mark of `0` denotes the wildcard and accepts every
packet mark; a nonzero configured mark accepts exactly that mark. -/
def markMatches (cfgMark : Int) (skbMark : Int) : Bool :=
  decide (cfgMark = 0) || decide (skbMark = cfgMark)

/-- Modelled from the spec: the L4 protocol enum of the Filter
Configurator (package `internal/pwru`, not under `src/`).  Spec §4.3:
"Protocol strings map to a small closed enum"; §6 names the values
`tcp`, `udp`, `icmp`. -/
inductive L4Proto
  | tcp
  | udp
  | icmp
  deriving DecidableEq, Repr

/-- Modelled from the spec: the protocol-string mapping of the Filter
Configurator (`internal/pwru`, not under `src/`): the three recognized
strings map to the closed enum, anything else is unrecognized (spec
§4.3: "unrecognized values fail fast before any write"). -/
def parseProto (s : String) : Option L4Proto :=
  if s = "tcp" then some L4Proto.tcp
  else if s = "udp" then some L4Proto.udp
  else if s = "icmp" then some L4Proto.icmp
  else none

/-- Modelled from the spec: an IP address in the form the Filter
Configurator stores it (spec §4.3: "IP literals parse to binary form
tagged by family (v4/v6)"). -/
inductive IPAddr
  | v4 (bits : Nat)
  | v6 (bits : Nat)
  deriving DecidableEq, Repr

/-- Modelled from the spec: the protocol matcher realised by
`pwru.ConfigBPFMap` and the kernel-resident filter (not under `src/`).
Spec §4.3: "An unset flag means match any value (wildcard)"; the flag
default (src/main.go line 43) makes an unset `--filter-proto` reach
the matcher as `""`, so an empty configured protocol accepts every
protocol; a recognized one accepts exactly that protocol. -/
def protoMatches (cfgProto : String) (p : L4Proto) : Bool :=
  if cfgProto = "" then true
  else
    match parseProto cfgProto with
    | some q => decide (p = q)
    | none => false

/-- Modelled from the spec: the IP matcher realised by
`pwru.ConfigBPFMap` and the kernel-resident filter (not under `src/`).
`parseIP` stands for the configurator's literal-to-binary parsing,
whose grammar is also not under `src/` and which the wildcard
behaviour does not depend on.  The flag defaults (src/main.go lines
44-45) make an unset IP flag reach the matcher as `""`, which accepts
every address; a parsed literal accepts exactly that address. -/
def ipMatches (cfgIP : String) (parseIP : String → Option IPAddr)
    (a : IPAddr) : Bool :=
  if cfgIP = "" then true
  else
    match parseIP cfgIP with
    | some b => decide (a = b)
    | none => false

/-- Modelled from the spec: the port matcher realised by
`pwru.ConfigBPFMap` and the kernel-resident filter (not under `src/`).
Spec §4.3: "Ports validated in [0,65535], 0 = wildcard"; `parsePort`
stands for the configurator's string-to-port parsing (not under
`src/`).  The flag defaults (src/main.go lines 46-47) make an unset
port flag reach the matcher as `""`, which accepts every port, as
does a configured port of 0. -/
def portMatches (cfgPort : String) (parsePort : String → Option Nat)
    (q : Nat) : Bool :=
  if cfgPort = "" then true
  else
    match parsePort cfgPort with
    | some 0 => true
    | some r => decide (q = r)
    | none => false

/-! ## Event pipeline (src/main.go lines 156-203)

`rd.Read()` returns a `(perf.Record, error)` pair; the record carries
`LostSamples` and `RawSample`.  The loop: closed error → `return`;
other error → log and fall through to the record checks; nonzero
`LostSamples` → log the count and `continue`; failed `binary.Read` →
log and `continue`; otherwise `output.Print`, then a
`select { case <-ctx.Done(): break; default: continue }`. -/

/-- One `perf.Record` as the loop sees it. -/
structure PerfRecord where
  lostSamples : Nat
  rawSample : List Nat
  deriving DecidableEq, Repr

/-- The error component of one `rd.Read()`: `closed` is an error that
`perf.IsClosed` recognises; `other` is any other read error. -/
inductive ReadErr
  | closed
  | other (msg : String)
  deriving DecidableEq, Repr

/-- One `rd.Read()` outcome: the error (or `none`) together with the
record value the call returned. -/
structure ReadItem where
  err : Option ReadErr
  record : PerfRecord
  deriving DecidableEq, Repr

/-- Modelled from the spec: `pwru.Event` lives in `internal/pwru`,
which is not under `src/`; spec §3 gives it a fixed binary layout.
`binary.Read(bytes.NewBuffer(raw), LittleEndian, &event)` succeeds iff
the raw sample supplies at least the event's fixed byte length
(`eventSize`); a shorter record makes it fail. -/
def decodeOk (eventSize : Nat) (raw : List Nat) : Bool :=
  decide (eventSize ≤ raw.length)

/-- What the post-render `select` statement does: with the context
done, the `case <-ctx.Done()` arm runs `break`; otherwise the
`default` arm runs `continue`. -/
inductive GoSelectOut
  | breakSelect
  | contLoop
  deriving DecidableEq, Repr

/-- Control effect on the `for` loop once the `select` statement
finishes. -/
inductive LoopCtl
  | nextIter
  | exitLoop
  deriving DecidableEq, Repr

/-- The `select` at src/main.go lines 197-202. -/
def postRenderSelect (ctxDone : Bool) : GoSelectOut :=
  if ctxDone then GoSelectOut.breakSelect else GoSelectOut.contLoop

/-- Go semantics of the two arms.  A `break` statement inside a
`select` terminates the `select` statement only (Go spec, "Break
statements"): execution falls to the end of the enclosing `for` body,
which begins the next iteration.  `continue` likewise begins the next
iteration. -/
def afterSelect : GoSelectOut → LoopCtl
  | GoSelectOut.breakSelect => LoopCtl.nextIter
  | GoSelectOut.contLoop => LoopCtl.nextIter

/-- Accumulated observable behaviour of the consume loop: the logged
lost-sample counts in order, the number of logged non-closed read
errors, the number of logged decode failures, the raw samples rendered
by `output.Print` in order, and whether the loop exited through the
`perf.IsClosed` branch. -/
structure ConsumeResult where
  lossLogs : List Nat
  readErrLogs : Nat
  decodeLogs : Nat
  rendered : List (List Nat)
  exitedClosed : Bool
  deriving DecidableEq, Repr

/-- The record checks of one iteration (src/main.go lines 185-202),
given the value the post-render `select` would observe on
`ctx.Done()`: nonzero `LostSamples` → log count, `continue`; decode
failure → log, `continue`; otherwise render, then the `select`. -/
def processRecord (eventSize : Nat) (ctxDone : Bool) (acc : ConsumeResult)
    (r : PerfRecord) : ConsumeResult × LoopCtl :=
  if r.lostSamples ≠ 0 then
    ({ acc with lossLogs := acc.lossLogs ++ [r.lostSamples] }, LoopCtl.nextIter)
  else if decodeOk eventSize r.rawSample then
    ({ acc with rendered := acc.rendered ++ [r.rawSample] },
      afterSelect (postRenderSelect ctxDone))
  else
    ({ acc with decodeLogs := acc.decodeLogs + 1 }, LoopCtl.nextIter)

/-- The consume loop (src/main.go lines 176-203) over a sequence of
read outcomes.  `cancel n` is the value of `ctx.Done()` the `n`-th
iteration's `select` would observe.  A closed read error returns from
`main`; a non-closed read error is logged and the returned record is
examined anyway (the code does not skip it); an exhausted input list
models a run still blocked in `rd.Read()`. -/
def consumeAux (eventSize : Nat) (cancel : Nat → Bool) :
    Nat → ConsumeResult → List ReadItem → ConsumeResult
  | _, acc, [] => acc
  | n, acc, it :: rest =>
    match it.err with
    | some ReadErr.closed => { acc with exitedClosed := true }
    | some (ReadErr.other _) =>
      match processRecord eventSize (cancel n)
          { acc with readErrLogs := acc.readErrLogs + 1 } it.record with
      | (acc1, LoopCtl.nextIter) => consumeAux eventSize cancel (n + 1) acc1 rest
      | (acc1, LoopCtl.exitLoop) => acc1
    | none =>
      match processRecord eventSize (cancel n) acc it.record with
      | (acc1, LoopCtl.nextIter) => consumeAux eventSize cancel (n + 1) acc1 rest
      | (acc1, LoopCtl.exitLoop) => acc1

/-- Empty accumulator. -/
def initConsumeResult : ConsumeResult :=
  { lossLogs := [], readErrLogs := 0, decodeLogs := 0, rendered := [],
    exitedClosed := false }

/-- The whole consume loop. -/
def consumeRun (eventSize : Nat) (cancel : Nat → Bool)
    (items : List ReadItem) : ConsumeResult :=
  consumeAux eventSize cancel 0 initConsumeResult items

/-! ### Spec-side characterisation of the consume loop -/

/-- A read outcome that does not end the loop. -/
def notClosed (it : ReadItem) : Bool :=
  decide (¬ it.err = some ReadErr.closed)

/-- The reads the loop examines: the longest initial segment with no
closed error. -/
def processedItems (items : List ReadItem) : List ReadItem :=
  items.takeWhile notClosed

/-- The lost-sample counts the spec expects to be logged: one log per
examined read whose record reports a nonzero loss, with that count. -/
def lossLogsSpec (items : List ReadItem) : List Nat :=
  (processedItems items).filterMap
    (fun it => if it.record.lostSamples ≠ 0 then some it.record.lostSamples else none)

/-- The raw samples the spec expects to be rendered: the examined
records with no loss report that decode successfully. -/
def renderedSpec (eventSize : Nat) (items : List ReadItem) : List (List Nat) :=
  (processedItems items).filterMap
    (fun it =>
      if it.record.lostSamples = 0 ∧ decodeOk eventSize it.record.rawSample
      then some it.record.rawSample else none)

/-- The number of decode failures the spec expects to be logged. -/
def decodeLogsSpec (eventSize : Nat) (items : List ReadItem) : Nat :=
  (processedItems items).countP
    (fun it => decide (it.record.lostSamples = 0) &&
      !(decodeOk eventSize it.record.rawSample))

/-- The number of non-closed read errors the spec expects to be
logged. -/
def readErrLogsSpec (items : List ReadItem) : Nat :=
  (processedItems items).countP
    (fun it => match it.err with
      | some (ReadErr.other _) => true
      | _ => false)

/-- Whether some read returns a closed error. -/
def hitsClosed (items : List ReadItem) : Bool :=
  items.any (fun it => decide (it.err = some ReadErr.closed))

/-! ## Ordering of `ConfigBPFMap` and the attach loop
(src/main.go lines 113-152)

`main` is straight-line: `pwru.ConfigBPFMap(&flags, cfgMap)` at line
113 runs, then the attach loop at lines 118-152.  We record the phase
as a single event trace. -/

/-- Events of the configure-and-attach phase of `main`:
the single wholesale `ConfigBPFMap` write, then the attach loop's
events. -/
inductive MainEvent
  | configWrite
  | attach (ev : AEvent)
  deriving DecidableEq, Repr

/-- The configure-and-attach phase, in program order: line 113 writes
the filter configuration, then lines 118-152 run the attach loop. -/
def mainAttachPhase (res : String → AttachOutcome) (cancelAt : Option Nat)
    (funcs : List FuncEntry) : List MainEvent :=
  MainEvent.configWrite :: (attachLoop res cancelAt funcs).trace.map MainEvent.attach

/-! ## Concrete runs used as witnesses -/

/-- Attachment oracle where symbol `b` fails with a non-`ErrNotExist`
error and everything else attaches fine. -/
def resC1 : String → AttachOutcome :=
  fun n => if n = "b" then AttachOutcome.errOther else AttachOutcome.ok

/-- A three-entry catalog: `a` attaches, `b` hits the fatal error,
`c` would attach but is never tried. -/
def funcsC1 : List FuncEntry := [⟨"a", 1⟩, ⟨"b", 2⟩, ⟨"c", 3⟩]

/-- Attachment oracle where every symbol attaches fine. -/
def resAllOk : String → AttachOutcome := fun _ => AttachOutcome.ok

/-- A three-entry all-in-range catalog. -/
def funcsW : List FuncEntry := [⟨"f1", 1⟩, ⟨"f2", 2⟩, ⟨"f3", 3⟩]

/-- Attachment oracle where symbol `miss` is absent and symbol `boom`
fails fatally. -/
def resC5 : String → AttachOutcome :=
  fun n =>
    if n = "miss" then AttachOutcome.errNotExist
    else if n = "boom" then AttachOutcome.errOther
    else AttachOutcome.ok

/-- A catalog with one absent symbol, one attachable symbol, and one
out-of-range entry. -/
def funcsC5 : List FuncEntry := [⟨"miss", 1⟩, ⟨"good", 2⟩, ⟨"weird", 7⟩]

/-- A one-entry catalog whose symbol fails fatally. -/
def funcsC5b : List FuncEntry := [⟨"boom", 1⟩]

/-- A read sequence: a valid record, a loss report of 3, a short
record, a valid record, a loss report of 4, then the closed error
(with the zero record `rd.Read` returns alongside it). -/
def itemsW : List ReadItem :=
  [⟨none, ⟨0, [1, 2]⟩⟩, ⟨none, ⟨3, []⟩⟩, ⟨none, ⟨0, [9]⟩⟩,
   ⟨none, ⟨0, [5, 6, 7]⟩⟩, ⟨none, ⟨4, []⟩⟩,
   ⟨some ReadErr.closed, ⟨0, []⟩⟩]

/-! ### Helper lemmas: the switch, traces -/

/-- The switch selects a variant exactly for positions 1..5. -/
lemma selectKprobe_eq_none_iff (p : Int) :
    selectKprobe p = none ↔ (p < 1 ∨ 5 < p) := by
  unfold selectKprobe
  split_ifs with h1 h2 h3 h4 h5 <;> simp <;> omega

/-- When the switch selects a variant, the variant's slot index is the
position: the choice is a pure function of the position. -/
lemma selectKprobe_variantIndex {p : Int} {k : Kprobe}
    (h : selectKprobe p = some k) : variantIndex k = p := by
  unfold selectKprobe at h
  split_ifs at h with h1 h2 h3 h4 h5 <;>
    simp only [Option.some.injEq] at h <;> subst h <;> simp [variantIndex] <;> omega

lemma goodTrace_append {xs ys : List AEvent}
    (hx : GoodTrace xs) (hy : GoodTrace ys) : GoodTrace (xs ++ ys) := by
  induction hx with
  | nil => simpa using hy
  | ign i _ ih => exact GoodTrace.ign i ih
  | pollT _ ih => exact GoodTrace.pollT ih
  | pollF i k _ ih => exact GoodTrace.pollF i k ih

lemma pollGuardAux_of_goodTrace {t : List AEvent} (h : GoodTrace t) :
    ∀ b, pollGuardAux b t = true := by
  induction h with
  | nil => intro b; rfl
  | ign i _ ih => intro b; simpa [pollGuardAux] using ih false
  | pollT _ ih => intro b; simpa [pollGuardAux] using ih false
  | pollF i k _ ih => intro b; simpa [pollGuardAux] using ih false

/-- The attach loop only extends the trace by good chunks. -/
lemma attachLoopAux_trace_good (res : String → AttachOutcome)
    (cancelAt : Option Nat) :
    ∀ (l : List FuncEntry) (idx : Nat) (st : AttachState),
      GoodTrace st.trace →
      GoodTrace (attachLoopAux res cancelAt idx st l).trace := by
  intro l
  induction l with
  | nil => intro idx st h; exact h
  | cons e rest ih =>
    intro idx st h
    cases hsel : selectKprobe e.pos with
    | none =>
      simp only [attachLoopAux, hsel]
      exact ih (idx + 1) _ (goodTrace_append h (GoodTrace.ign idx GoodTrace.nil))
    | some k =>
      cases hd : pollDone cancelAt st.attempts.length with
      | true =>
        simp only [attachLoopAux, hsel, hd]
        exact goodTrace_append h (GoodTrace.pollT GoodTrace.nil)
      | false =>
        cases hres : res e.name with
        | ok =>
          simp only [attachLoopAux, hsel, hd, hres]
          exact ih (idx + 1) _ (goodTrace_append h (GoodTrace.pollF idx k GoodTrace.nil))
        | errNotExist =>
          simp only [attachLoopAux, hsel, hd, hres]
          exact ih (idx + 1) _ (goodTrace_append h (GoodTrace.pollF idx k GoodTrace.nil))
        | errOther =>
          simp only [attachLoopAux, hsel, hd, hres]
          exact goodTrace_append h (GoodTrace.pollF idx k GoodTrace.nil)

/-! ### Helper lemmas: loop invariants -/

/-- Each entry a completed run processed went either to `attached` or
into `ignored`. -/
lemma attachLoopAux_completed_count (res : String → AttachOutcome)
    (cancelAt : Option Nat) :
    ∀ (l : List FuncEntry) (idx : Nat) (st : AttachState),
      (attachLoopAux res cancelAt idx st l).exitk = ExitKind.completed →
      (attachLoopAux res cancelAt idx st l).attached.length
          + (attachLoopAux res cancelAt idx st l).ignored
        = st.attached.length + st.ignored + l.length := by
  intro l
  induction l with
  | nil => intro idx st _; simp [attachLoopAux]
  | cons e rest ih =>
    intro idx st h
    cases hsel : selectKprobe e.pos with
    | none =>
      simp only [attachLoopAux, hsel] at h ⊢
      have := ih (idx + 1) _ h
      simp at this ⊢
      omega
    | some k =>
      cases hd : pollDone cancelAt st.attempts.length with
      | true => simp [attachLoopAux, hsel, hd] at h
      | false =>
        cases hres : res e.name with
        | ok =>
          simp only [attachLoopAux, hsel, hd, hres] at h ⊢
          have := ih (idx + 1) _ h
          simp at this ⊢
          omega
        | errNotExist =>
          simp only [attachLoopAux, hsel, hd, hres] at h ⊢
          have := ih (idx + 1) _ h
          simp at this ⊢
          omega
        | errOther => simp [attachLoopAux, hsel, hd, hres] at h

/-- A fatal exit names a symbol whose attachment failed with an error
other than `os.ErrNotExist`. -/
lemma attachLoopAux_fatal_res (res : String → AttachOutcome)
    (cancelAt : Option Nat) :
    ∀ (l : List FuncEntry) (idx : Nat) (st : AttachState) (nm : String),
      (attachLoopAux res cancelAt idx st l).exitk = ExitKind.fatal nm →
      res nm = AttachOutcome.errOther := by
  intro l
  induction l with
  | nil => intro idx st nm h; simp [attachLoopAux] at h
  | cons e rest ih =>
    intro idx st nm h
    cases hsel : selectKprobe e.pos with
    | none =>
      simp only [attachLoopAux, hsel] at h
      exact ih (idx + 1) _ nm h
    | some k =>
      cases hd : pollDone cancelAt st.attempts.length with
      | true => simp [attachLoopAux, hsel, hd] at h
      | false =>
        cases hres : res e.name with
        | ok =>
          simp only [attachLoopAux, hsel, hd, hres] at h
          exact ih (idx + 1) _ nm h
        | errNotExist =>
          simp only [attachLoopAux, hsel, hd, hres] at h
          exact ih (idx + 1) _ nm h
        | errOther =>
          simp only [attachLoopAux, hsel, hd, hres, ExitKind.fatal.injEq] at h
          rw [← h]; exact hres

/-- With the cancellation signal never raised, a completed run's
attempt list is exactly the spec's attempt list. -/
lemma attachLoopAux_none_attempts (res : String → AttachOutcome) :
    ∀ (l : List FuncEntry) (idx : Nat) (st : AttachState),
      (attachLoopAux res none idx st l).exitk = ExitKind.completed →
      (attachLoopAux res none idx st l).attempts
        = st.attempts ++ attachAttemptsSpec idx l := by
  intro l
  induction l with
  | nil => intro idx st _; simp [attachLoopAux, attachAttemptsSpec]
  | cons e rest ih =>
    intro idx st h
    cases hsel : selectKprobe e.pos with
    | none =>
      simp only [attachLoopAux, hsel] at h ⊢
      rw [ih (idx + 1) _ h]
      simp [attachAttemptsSpec, hsel]
    | some k =>
      have hd : pollDone none st.attempts.length = false := rfl
      cases hres : res e.name with
      | ok =>
        simp only [attachLoopAux, hsel, hd, hres] at h ⊢
        rw [ih (idx + 1) _ h]
        simp [attachAttemptsSpec, hsel]
      | errNotExist =>
        simp only [attachLoopAux, hsel, hd, hres] at h ⊢
        rw [ih (idx + 1) _ h]
        simp [attachAttemptsSpec, hsel]
      | errOther => simp [attachLoopAux, hsel, hd, hres] at h

/-- With the cancellation signal never raised, a completed run's
ignored counter is exactly the spec's ignored count. -/
lemma attachLoopAux_none_ignored (res : String → AttachOutcome) :
    ∀ (l : List FuncEntry) (idx : Nat) (st : AttachState),
      (attachLoopAux res none idx st l).exitk = ExitKind.completed →
      (attachLoopAux res none idx st l).ignored
        = st.ignored + ignoredSpec res l := by
  intro l
  induction l with
  | nil => intro idx st _; simp [attachLoopAux, ignoredSpec]
  | cons e rest ih =>
    intro idx st h
    cases hsel : selectKprobe e.pos with
    | none =>
      simp only [attachLoopAux, hsel] at h ⊢
      rw [ih (idx + 1) _ h]
      simp [ignoredSpec, hsel]
      omega
    | some k =>
      have hd : pollDone none st.attempts.length = false := rfl
      cases hres : res e.name with
      | ok =>
        simp only [attachLoopAux, hsel, hd, hres] at h ⊢
        rw [ih (idx + 1) _ h]
        simp [ignoredSpec, hsel, hres]
      | errNotExist =>
        simp only [attachLoopAux, hsel, hd, hres] at h ⊢
        rw [ih (idx + 1) _ h]
        simp [ignoredSpec, hsel, hres]
        omega
      | errOther => simp [attachLoopAux, hsel, hd, hres] at h

/-- With the signal fired once `c` attempts are done, the loop never
makes more attempts than `max c` (attempts already made). -/
lemma attachLoopAux_attempts_le (res : String → AttachOutcome) (c : Nat) :
    ∀ (l : List FuncEntry) (idx : Nat) (st : AttachState),
      (attachLoopAux res (some c) idx st l).attempts.length
        ≤ max c st.attempts.length := by
  intro l
  induction l with
  | nil => intro idx st; simp [attachLoopAux]
  | cons e rest ih =>
    intro idx st
    cases hsel : selectKprobe e.pos with
    | none =>
      simp only [attachLoopAux, hsel]
      exact ih (idx + 1) _
    | some k =>
      cases hd : pollDone (some c) st.attempts.length with
      | true => simp [attachLoopAux, hsel, hd]
      | false =>
        have hlt : st.attempts.length < c := by
          simpa [pollDone] using hd
        cases hres : res e.name with
        | ok =>
          simp only [attachLoopAux, hsel, hd, hres]
          have := ih (idx + 1)
            { ignored := st.ignored, bar := st.bar + 1,
              attached := st.attached ++ [idx],
              attempts := st.attempts ++ [(idx, k)],
              trace := st.trace ++ [AEvent.poll false, AEvent.attempt idx k] }
          simp at this
          omega
        | errNotExist =>
          simp only [attachLoopAux, hsel, hd, hres]
          have := ih (idx + 1)
            { ignored := st.ignored + 1, bar := st.bar + 1,
              attached := st.attached,
              attempts := st.attempts ++ [(idx, k)],
              trace := st.trace ++ [AEvent.poll false, AEvent.attempt idx k] }
          simp at this
          omega
        | errOther =>
          simp only [attachLoopAux, hsel, hd, hres]
          simp
          omega

/-- The deferred-close stack holds mutually distinct handles: each
successful attempt defers the close of the handle it just acquired,
and indices only grow. -/
lemma attachLoopAux_attached_nodup (res : String → AttachOutcome)
    (cancelAt : Option Nat) :
    ∀ (l : List FuncEntry) (idx : Nat) (st : AttachState),
      (∀ j ∈ st.attached, j < idx) → st.attached.Nodup →
      (attachLoopAux res cancelAt idx st l).attached.Nodup := by
  intro l
  induction l with
  | nil => intro idx st _ hnd; exact hnd
  | cons e rest ih =>
    intro idx st hlt hnd
    cases hsel : selectKprobe e.pos with
    | none =>
      simp only [attachLoopAux, hsel]
      exact ih (idx + 1) _ (fun j hj => Nat.lt_succ_of_lt (hlt j hj)) hnd
    | some k =>
      cases hd : pollDone cancelAt st.attempts.length with
      | true => simpa [attachLoopAux, hsel, hd] using hnd
      | false =>
        cases hres : res e.name with
        | ok =>
          simp only [attachLoopAux, hsel, hd, hres]
          refine ih (idx + 1) _ ?_ ?_
          · intro j hj
            simp at hj
            rcases hj with hj | hj
            · exact Nat.lt_succ_of_lt (hlt j hj)
            · omega
          · simp [List.nodup_append, hnd]
            intro hmem
            exact absurd (hlt idx hmem) (lt_irrefl idx)
        | errNotExist =>
          simp only [attachLoopAux, hsel, hd, hres]
          exact ih (idx + 1) _ (fun j hj => Nat.lt_succ_of_lt (hlt j hj)) hnd
        | errOther => simpa [attachLoopAux, hsel, hd, hres] using hnd

/-- On the cancellation `return`, the defer stack is unwound: the
released handles are exactly the attached ones, in reverse attach
order. -/
lemma attachLoopAux_cancelled_released (res : String → AttachOutcome)
    (cancelAt : Option Nat) :
    ∀ (l : List FuncEntry) (idx : Nat) (st : AttachState),
      (attachLoopAux res cancelAt idx st l).exitk = ExitKind.cancelled →
      (attachLoopAux res cancelAt idx st l).released
        = (attachLoopAux res cancelAt idx st l).attached.reverse := by
  intro l
  induction l with
  | nil => intro idx st h; simp [attachLoopAux] at h
  | cons e rest ih =>
    intro idx st h
    cases hsel : selectKprobe e.pos with
    | none =>
      simp only [attachLoopAux, hsel] at h ⊢
      exact ih (idx + 1) _ h
    | some k =>
      cases hd : pollDone cancelAt st.attempts.length with
      | true => simp [attachLoopAux, hsel, hd]
      | false =>
        cases hres : res e.name with
        | ok =>
          simp only [attachLoopAux, hsel, hd, hres] at h ⊢
          exact ih (idx + 1) _ h
        | errNotExist =>
          simp only [attachLoopAux, hsel, hd, hres] at h ⊢
          exact ih (idx + 1) _ h
        | errOther => simp [attachLoopAux, hsel, hd, hres] at h

/-- Provenance of attempts: every attempt the loop makes comes from a
catalog entry whose position selected that variant. -/
lemma attachLoopAux_attempts_mem (res : String → AttachOutcome)
    (cancelAt : Option Nat) :
    ∀ (l : List FuncEntry) (idx : Nat) (st : AttachState) (a : Nat × Kprobe),
      a ∈ (attachLoopAux res cancelAt idx st l).attempts →
      a ∈ st.attempts ∨
        ∃ j e, l[j]? = some e ∧ a.1 = idx + j ∧ selectKprobe e.pos = some a.2 := by
  intro l
  induction l with
  | nil =>
    intro idx st a ha
    simp only [attachLoopAux] at ha
    exact Or.inl ha
  | cons e rest ih =>
    intro idx st a ha
    cases hsel : selectKprobe e.pos with
    | none =>
      simp only [attachLoopAux, hsel] at ha
      rcases ih (idx + 1) _ a ha with h | ⟨j, e', hj, hidx, hsel'⟩
      · exact Or.inl h
      · exact Or.inr ⟨j + 1, e', by simpa using hj, by omega, hsel'⟩
    | some k =>
      have step : a ∈ st.attempts ++ [(idx, k)] →
          a ∈ st.attempts ∨
            ∃ j e', (e :: rest)[j]? = some e' ∧ a.1 = idx + j ∧
              selectKprobe e'.pos = some a.2 := by
        intro ha'
        simp at ha'
        rcases ha' with h | h
        · exact Or.inl h
        · subst h
          exact Or.inr ⟨0, e, by simp, by simp, by simpa using hsel⟩
      cases hd : pollDone cancelAt st.attempts.length with
      | true =>
        simp only [attachLoopAux, hsel, hd] at ha
        exact Or.inl ha
      | false =>
        cases hres : res e.name with
        | ok =>
          simp only [attachLoopAux, hsel, hd, hres] at ha
          rcases ih (idx + 1) _ a ha with h | ⟨j, e', hj, hidx, hsel'⟩
          · exact step h
          · exact Or.inr ⟨j + 1, e', by simpa using hj, by omega, hsel'⟩
        | errNotExist =>
          simp only [attachLoopAux, hsel, hd, hres] at ha
          rcases ih (idx + 1) _ a ha with h | ⟨j, e', hj, hidx, hsel'⟩
          · exact step h
          · exact Or.inr ⟨j + 1, e', by simpa using hj, by omega, hsel'⟩
        | errOther =>
          simp only [attachLoopAux, hsel, hd, hres] at ha
          exact step ha

/-- Indices in the spec attempt list never go below the starting
index. -/
lemma attachAttemptsSpec_idx_ge :
    ∀ (l : List FuncEntry) (idx : Nat) (a : Nat × Kprobe),
      a ∈ attachAttemptsSpec idx l → idx ≤ a.1 := by
  intro l
  induction l with
  | nil => intro idx a ha; simp [attachAttemptsSpec] at ha
  | cons e rest ih =>
    intro idx a ha
    cases hsel : selectKprobe e.pos with
    | none =>
      simp only [attachAttemptsSpec, hsel] at ha
      exact Nat.le_of_succ_le (ih (idx + 1) a ha)
    | some k =>
      simp only [attachAttemptsSpec, hsel, List.mem_cons] at ha
      rcases ha with h | h
      · subst h; exact Nat.le_refl idx
      · exact Nat.le_of_succ_le (ih (idx + 1) a h)

/-- Each in-range catalog entry contributes exactly one attempt to the
spec attempt list, and that attempt uses the variant its position
selects. -/
lemma attachAttemptsSpec_entry :
    ∀ (l : List FuncEntry) (idx j : Nat) (e : FuncEntry) (k : Kprobe),
      l[j]? = some e → selectKprobe e.pos = some k →
      (attachAttemptsSpec idx l).countP (fun a => decide (a.1 = idx + j)) = 1 ∧
        ∀ a ∈ attachAttemptsSpec idx l, a.1 = idx + j → a.2 = k := by
  intro l
  induction l with
  | nil => intro idx j e k hj; simp at hj
  | cons e0 rest ih =>
    intro idx j e k hj hk
    cases j with
    | zero =>
      simp at hj
      subst hj
      have hz : idx + 0 = idx := Nat.add_zero idx
      rw [hz]
      constructor
      · simp only [attachAttemptsSpec, hk]
        rw [List.countP_cons]
        have h0 : (attachAttemptsSpec (idx + 1) rest).countP
            (fun a => decide (a.1 = idx)) = 0 := by
          rw [List.countP_eq_zero]
          intro a ha
          have := attachAttemptsSpec_idx_ge rest (idx + 1) a ha
          simp
          omega
        rw [h0]
        simp
      · intro a ha hidx
        simp only [attachAttemptsSpec, hk, List.mem_cons] at ha
        rcases ha with h | h
        · subst h; rfl
        · have := attachAttemptsSpec_idx_ge rest (idx + 1) a h
          omega
    | succ jj =>
      simp at hj
      have harith : idx + (jj + 1) = idx + 1 + jj := by omega
      rw [harith]
      cases hsel : selectKprobe e0.pos with
      | none =>
        simp only [attachAttemptsSpec, hsel]
        exact ih (idx + 1) jj e k hj hk
      | some k0 =>
        simp only [attachAttemptsSpec, hsel]
        have hrest := ih (idx + 1) jj e k hj hk
        constructor
        · rw [List.countP_cons]
          have hhead : ¬ (idx = idx + 1 + jj) := by omega
          rw [hrest.1]
          simp [hhead]
        · intro a ha hidx
          simp only [List.mem_cons] at ha
          rcases ha with h | h
          · subst h; simp at hidx; omega
          · exact hrest.2 a h hidx

/-! ### Helper lemmas: consume loop -/

/-- Whatever the `select` observed, control reaches the next
iteration: neither arm leaves the `for` loop. -/
lemma afterSelect_eq (g : GoSelectOut) : afterSelect g = LoopCtl.nextIter := by
  cases g <;> rfl

/-- One iteration's record processing always hands control to the next
iteration, and its accumulator effect does not depend on what the
`select` observed. -/
lemma processRecord_eq (eventSize : Nat) (d : Bool) (acc : ConsumeResult)
    (r : PerfRecord) :
    processRecord eventSize d acc r =
      (if r.lostSamples ≠ 0 then
        { acc with lossLogs := acc.lossLogs ++ [r.lostSamples] }
      else if decodeOk eventSize r.rawSample then
        { acc with rendered := acc.rendered ++ [r.rawSample] }
      else { acc with decodeLogs := acc.decodeLogs + 1 },
      LoopCtl.nextIter) := by
  unfold processRecord
  split_ifs <;> simp [afterSelect_eq]

/-- Full characterisation of the consume loop: the logs, renders and
exit mode are determined by the examined segment of the input,
independently of the cancellation signal. -/
lemma consumeAux_characterisation (eventSize : Nat) (cancel : Nat → Bool) :
    ∀ (items : List ReadItem) (n : Nat) (acc : ConsumeResult),
      consumeAux eventSize cancel n acc items =
        { lossLogs := acc.lossLogs ++ lossLogsSpec items,
          readErrLogs := acc.readErrLogs + readErrLogsSpec items,
          decodeLogs := acc.decodeLogs + decodeLogsSpec eventSize items,
          rendered := acc.rendered ++ renderedSpec eventSize items,
          exitedClosed := acc.exitedClosed || hitsClosed items } := by
  intro items
  induction items with
  | nil =>
    intro n acc
    simp [consumeAux, lossLogsSpec, readErrLogsSpec, decodeLogsSpec,
      renderedSpec, processedItems, hitsClosed]
  | cons it rest ih =>
    intro n acc
    obtain ⟨err, r⟩ := it
    cases err with
    | none =>
      have hnc : notClosed ⟨none, r⟩ = true := by simp [notClosed]
      simp only [consumeAux, processRecord_eq]
      by_cases hl : r.lostSamples = 0
      · by_cases hdec : decodeOk eventSize r.rawSample = true
        · simp only [hl, hdec, if_true, if_false, ne_eq, not_true_eq_false,
            reduceIte]
          rw [ih]
          simp [lossLogsSpec, readErrLogsSpec, decodeLogsSpec, renderedSpec,
            processedItems, hitsClosed, List.takeWhile_cons, hnc, hl, hdec]
        · simp only [hl, ne_eq, not_true_eq_false, reduceIte,
            Bool.not_eq_true] at hdec ⊢
          simp only [hdec, reduceIte]
          rw [ih]
          simp [lossLogsSpec, readErrLogsSpec, decodeLogsSpec, renderedSpec,
            processedItems, hitsClosed, List.takeWhile_cons, hnc, hl, hdec]
          omega
      · simp only [ne_eq, hl, not_false_eq_true, reduceIte]
        rw [ih]
        simp [lossLogsSpec, readErrLogsSpec, decodeLogsSpec, renderedSpec,
          processedItems, hitsClosed, List.takeWhile_cons, hnc, hl]
    | some re =>
      cases re with
      | closed =>
        have hnc : notClosed ⟨some ReadErr.closed, r⟩ = false := by
          simp [notClosed]
        simp only [consumeAux]
        simp [lossLogsSpec, readErrLogsSpec, decodeLogsSpec, renderedSpec,
          processedItems, hitsClosed, List.takeWhile_cons, hnc]
      | other msg =>
        have hnc : notClosed ⟨some (ReadErr.other msg), r⟩ = true := by
          simp [notClosed]
        simp only [consumeAux, processRecord_eq]
        by_cases hl : r.lostSamples = 0
        · by_cases hdec : decodeOk eventSize r.rawSample = true
          · simp only [hl, hdec, if_true, if_false, ne_eq, not_true_eq_false,
              reduceIte]
            rw [ih]
            simp [lossLogsSpec, readErrLogsSpec, decodeLogsSpec, renderedSpec,
              processedItems, hitsClosed, List.takeWhile_cons, hnc, hl, hdec]
            omega
          · simp only [hl, ne_eq, not_true_eq_false, reduceIte,
              Bool.not_eq_true] at hdec ⊢
            simp only [hdec, reduceIte]
            rw [ih]
            simp [lossLogsSpec, readErrLogsSpec, decodeLogsSpec, renderedSpec,
              processedItems, hitsClosed, List.takeWhile_cons, hnc, hl, hdec]
            omega
        · simp only [ne_eq, hl, not_false_eq_true, reduceIte]
          rw [ih]
          simp [lossLogsSpec, readErrLogsSpec, decodeLogsSpec, renderedSpec,
            processedItems, hitsClosed, List.takeWhile_cons, hnc, hl]
          omega


/-- Summing the logged nonzero loss counts is the same as summing all
reported loss counts, because the unlogged ones are zero. -/
lemma filterMap_lost_sum :
    ∀ l : List ReadItem,
      (l.filterMap (fun it =>
        if it.record.lostSamples = 0 then none
        else some it.record.lostSamples)).sum
        = (l.map (fun it => it.record.lostSamples)).sum := by
  intro l
  induction l with
  | nil => rfl
  | cons it rest ih =>
    by_cases hl : it.record.lostSamples = 0
    · simp [hl, ih]
    · simp [hl, ih]

/-- Everything in the spec's rendered list decodes successfully. -/
lemma renderedSpec_mem_decodeOk (eventSize : Nat) (items : List ReadItem)
    (bs : List Nat) (hbs : bs ∈ renderedSpec eventSize items) :
    decodeOk eventSize bs = true := by
  simp only [renderedSpec, List.mem_filterMap] at hbs
  obtain ⟨it, _, hit⟩ := hbs
  by_cases hc : it.record.lostSamples = 0 ∧ decodeOk eventSize it.record.rawSample
  · rw [if_pos hc] at hit
    cases hit
    exact hc.2
  · rw [if_neg hc] at hit
    cases hit

/-! ## Claim theorems -/

/-- C1.  The claim says a non-`ErrNotExist` attachment failure aborts
remaining attachment AND releases every already-attached handle before
the process terminates.  The abort half holds, but the release half
fails on the code: `log.Fatalf` (src/main.go line 145) exits via
`os.Exit`, which runs no deferred function, so the `defer kp.Close()`
of the already-attached probe never executes.  Concretely: catalog
`a/b/c`, where `a` attaches, `b` fails fatally; no further attempt is
made (abort holds) but the released list is empty while `a` is still
attached. -/
theorem c1_fatal_exit_skips_release :
    (attachLoop resC1 none funcsC1).exitk = ExitKind.fatal "b" ∧
    (attachLoop resC1 none funcsC1).attempts
        = [(0, Kprobe.skb1), (1, Kprobe.skb2)] ∧
    (attachLoop resC1 none funcsC1).attached = [0] ∧
    (attachLoop resC1 none funcsC1).released = [] := by
  decide

/-- C2.  The cancellation signal is polled between every pair of
consecutive attachment attempts (every attempt in the trace is
immediately preceded by a poll), raising cancellation once `c`
attempts are done halts the loop after at most one further attempt,
and on the cancellation exit every attached probe is released exactly
once (the defer stack unwinds once, in reverse attach order). -/
theorem c2_cancellation_responsive (res : String → AttachOutcome)
    (funcs : List FuncEntry) (c : Nat) :
    pollGuard (attachLoop res (some c) funcs).trace = true ∧
    (attachLoop res (some c) funcs).attempts.length ≤ c + 1 ∧
    ((attachLoop res (some c) funcs).exitk = ExitKind.cancelled →
      (attachLoop res (some c) funcs).released
          = (attachLoop res (some c) funcs).attached.reverse ∧
      ∀ x ∈ (attachLoop res (some c) funcs).attached,
        (attachLoop res (some c) funcs).released.count x = 1) := by
  refine ⟨?_, ?_, ?_⟩
  · exact pollGuardAux_of_goodTrace
      (attachLoopAux_trace_good res (some c) funcs 0 initAttachState
        GoodTrace.nil) false
  · show (attachLoopAux res (some c) 0 initAttachState funcs).attempts.length
        ≤ c + 1
    have h := attachLoopAux_attempts_le res c funcs 0 initAttachState
    have h2 : (initAttachState.attempts).length = 0 := rfl
    rw [h2] at h
    simp at h
    omega
  · intro hexit
    have hrel := attachLoopAux_cancelled_released res (some c) funcs 0
      initAttachState hexit
    refine ⟨hrel, ?_⟩
    intro x hx
    have hnd := attachLoopAux_attached_nodup res (some c) funcs 0
      initAttachState (by simp [initAttachState]) (by simp [initAttachState])
    have hx' : x ∈ (attachLoopAux res (some c) 0 initAttachState funcs).attached :=
      hx
    have hcount : (attachLoopAux res (some c) 0 initAttachState
        funcs).released.count x = 1 := by
      rw [hrel, List.count_reverse]
      exact List.count_eq_one_of_mem hnd hx'
    exact hcount

/-- Witness for C2 at a concrete run: three attachable entries,
cancellation raised after one attempt; the loop exits cancelled and
the one attached probe is released exactly once. -/
theorem c2_cancellation_responsive_witness :
    pollGuard (attachLoop resAllOk (some 1) funcsW).trace = true ∧
    (attachLoop resAllOk (some 1) funcsW).released
        = (attachLoop resAllOk (some 1) funcsW).attached.reverse ∧
    (attachLoop resAllOk (some 1) funcsW).released.count 0 = 1 :=
  ⟨(c2_cancellation_responsive resAllOk funcsW 1).1,
   ((c2_cancellation_responsive resAllOk funcsW 1).2.2 (by decide)).1,
   ((c2_cancellation_responsive resAllOk funcsW 1).2.2 (by decide)).2 0
     (by decide)⟩

/-- C3.  When the attach loop completes without a fatal error or
cancellation, attached plus ignored equals the catalog size, and
entries with position outside 1..5 are never attempted (no attempt in
the run carries their index). -/
theorem c3_attached_plus_ignored_is_catalog_size
    (res : String → AttachOutcome) (cancelAt : Option Nat)
    (funcs : List FuncEntry)
    (h : (attachLoop res cancelAt funcs).exitk = ExitKind.completed) :
    (attachLoop res cancelAt funcs).attached.length
        + (attachLoop res cancelAt funcs).ignored = funcs.length ∧
    ∀ (i : Nat) (e : FuncEntry), funcs[i]? = some e →
      selectKprobe e.pos = none →
      ∀ a ∈ (attachLoop res cancelAt funcs).attempts, a.1 ≠ i := by
  constructor
  · have hc := attachLoopAux_completed_count res cancelAt funcs 0
      initAttachState h
    simp [initAttachState] at hc
    exact hc
  · intro i e hi hnone a ha hai
    rcases attachLoopAux_attempts_mem res cancelAt funcs 0 initAttachState a ha
      with hmem | ⟨j, e', hj, hidx, hsel'⟩
    · simp [initAttachState] at hmem
    · have hji : j = i := by omega
      subst hji
      rw [hi] at hj
      cases hj
      rw [hnone] at hsel'
      cases hsel'

/-- Witness for C3: a catalog with an absent symbol, an attachable
symbol and an out-of-range entry completes with
`attached + ignored = 3`, and the out-of-range entry (index 2) is
never attempted. -/
theorem c3_attached_plus_ignored_is_catalog_size_witness :
    (attachLoop resC5 none funcsC5).attached.length
        + (attachLoop resC5 none funcsC5).ignored = funcsC5.length ∧
    ∀ a ∈ (attachLoop resC5 none funcsC5).attempts, a.1 ≠ 2 :=
  ⟨(c3_attached_plus_ignored_is_catalog_size resC5 none funcsC5 (by decide)).1,
   (c3_attached_plus_ignored_is_catalog_size resC5 none funcsC5 (by decide)).2
     2 ⟨"weird", 7⟩ (by decide) (by decide)⟩

/-- C4.  In an uninterrupted, non-fatal run, the attempts are exactly
one per in-range entry (the spec attempt list); an entry at index `i`
whose position selects variant `k` is attempted exactly once, with
that variant, and the variant's slot index equals the position; every
position in 1..5 selects the variant with that index; positions
outside 1..5 select no variant at all (no default fallthrough). -/
theorem c4_variant_pure_function_of_position (res : String → AttachOutcome)
    (funcs : List FuncEntry)
    (h : (attachLoop res none funcs).exitk = ExitKind.completed) :
    (attachLoop res none funcs).attempts = attachAttemptsSpec 0 funcs ∧
    (∀ (i : Nat) (e : FuncEntry) (k : Kprobe), funcs[i]? = some e →
      selectKprobe e.pos = some k →
      variantIndex k = e.pos ∧
      (attachLoop res none funcs).attempts.countP
          (fun a => decide (a.1 = i)) = 1 ∧
      ∀ a ∈ (attachLoop res none funcs).attempts, a.1 = i → a.2 = k) ∧
    (∀ p : Int, 1 ≤ p → p ≤ 5 →
      ∃ k, selectKprobe p = some k ∧ variantIndex k = p) ∧
    (∀ p : Int, (p < 1 ∨ 5 < p) → selectKprobe p = none) := by
  have hatt : (attachLoop res none funcs).attempts = attachAttemptsSpec 0 funcs := by
    simpa [initAttachState] using
      attachLoopAux_none_attempts res funcs 0 initAttachState h
  refine ⟨hatt, ?_, ?_, ?_⟩
  · intro i e k hi hk
    have hspec := attachAttemptsSpec_entry funcs 0 i e k hi hk
    refine ⟨selectKprobe_variantIndex hk, ?_, ?_⟩
    · rw [hatt]
      simpa using hspec.1
    · intro a ha hai
      rw [hatt] at ha
      exact hspec.2 a ha (by omega)
  · intro p h1 h5
    interval_cases p
    · exact ⟨Kprobe.skb1, by decide, by decide⟩
    · exact ⟨Kprobe.skb2, by decide, by decide⟩
    · exact ⟨Kprobe.skb3, by decide, by decide⟩
    · exact ⟨Kprobe.skb4, by decide, by decide⟩
    · exact ⟨Kprobe.skb5, by decide, by decide⟩
  · intro p hp
    exact (selectKprobe_eq_none_iff p).mpr hp

/-- Witness for C4 at a concrete completed run: three in-range
entries; the attempts equal the spec list and entry 1 is attempted
exactly once. -/
theorem c4_variant_pure_function_of_position_witness :
    (attachLoop resAllOk none funcsW).attempts = attachAttemptsSpec 0 funcsW ∧
    (attachLoop resAllOk none funcsW).attempts.countP
        (fun a => decide (a.1 = 1)) = 1 :=
  ⟨(c4_variant_pure_function_of_position resAllOk funcsW (by decide)).1,
   ((c4_variant_pure_function_of_position resAllOk funcsW (by decide)).2.1
     1 ⟨"f2", 2⟩ Kprobe.skb2 (by decide) (by decide)).2.1⟩

/-- C5.  A symbol-not-present failure (`os.ErrNotExist`) is never
fatal: a fatal exit always names a symbol whose attachment failed with
a different error; and in an uninterrupted completed run the ignored
counter counts exactly the out-of-range entries plus the
symbol-not-present entries, while the attempts still cover every
in-range entry (the loop continued past each missing symbol). -/
theorem c5_missing_symbol_ignored_never_fatal (res : String → AttachOutcome)
    (cancelAt : Option Nat) (funcs : List FuncEntry) (nm : String) :
    ((attachLoop res cancelAt funcs).exitk = ExitKind.fatal nm →
      res nm = AttachOutcome.errOther) ∧
    ((attachLoop res none funcs).exitk = ExitKind.completed →
      (attachLoop res none funcs).ignored = ignoredSpec res funcs ∧
      (attachLoop res none funcs).attempts = attachAttemptsSpec 0 funcs) := by
  constructor
  · intro h
    exact attachLoopAux_fatal_res res cancelAt funcs 0 initAttachState nm h
  · intro h
    constructor
    · simpa [initAttachState] using
        attachLoopAux_none_ignored res funcs 0 initAttachState h
    · simpa [initAttachState] using
        attachLoopAux_none_attempts res funcs 0 initAttachState h

/-- Witness for C5: with symbol `miss` absent the run completes and
counts it ignored; and the fatal-exit implication fires on the
catalog whose symbol `boom` fails with a different error. -/
theorem c5_missing_symbol_ignored_never_fatal_witness :
    (attachLoop resC5 none funcsC5).ignored = ignoredSpec resC5 funcsC5 ∧
    resC5 "boom" = AttachOutcome.errOther :=
  ⟨((c5_missing_symbol_ignored_never_fatal resC5 none funcsC5 "x").2
      (by decide)).1,
   (c5_missing_symbol_ignored_never_fatal resC5 none funcsC5b "boom").1
     (by decide)⟩

/-- C6 counterexample.  The claim says an unset `--filter-mark` is
distinguishable from filtering on mark value zero.  It is not: the
program state after `flag.Parse()` is identical for the empty command
line and for `--filter-mark 0`, because the flag's default is `0` and
set-ness is not recorded (src/main.go line 42), so nothing downstream
can tell them apart. -/
theorem c6_unset_equals_explicit_zero :
    parseFlags noArgs = parseFlags markZeroArgs := by
  decide

/-- C6 (amended).  For every filter flag — mark, protocol,
source/destination IP, source/destination port — leaving the flag
unset yields wildcard matching: the parsed default reaches the
matcher as the wildcard configuration, which accepts every value
(never "match zero/absent"); however an unset `--filter-mark` is NOT
distinguishable from `--filter-mark 0`: both parse to the same flag
state, so mark-zero filtering is not expressible.  The IP and port
conjuncts hold for any literal parsing the configurator may use. -/
theorem c6_unset_filter_flags_are_wildcards (v : Int) (p : L4Proto)
    (parseIP : String → Option IPAddr) (parsePort : String → Option Nat)
    (a : IPAddr) (q : Nat) :
    markMatches (parseFlags noArgs).filterMark v = true ∧
    protoMatches (parseFlags noArgs).filterProto p = true ∧
    ipMatches (parseFlags noArgs).filterSrcIP parseIP a = true ∧
    ipMatches (parseFlags noArgs).filterDstIP parseIP a = true ∧
    portMatches (parseFlags noArgs).filterSrcPort parsePort q = true ∧
    portMatches (parseFlags noArgs).filterDstPort parsePort q = true ∧
    parseFlags noArgs = parseFlags markZeroArgs := by
  refine ⟨?_, ?_, ?_, ?_, ?_, ?_, by decide⟩ <;>
    simp [markMatches, protoMatches, ipMatches, portMatches, parseFlags,
      noArgs]

/-- C7.  On every run the filter configuration is written wholesale,
exactly once, strictly before the first probe attachment attempt: the
configure-and-attach phase starts with the single `configWrite` event
and no later event is a configuration write. -/
theorem c7_config_written_before_first_attempt (res : String → AttachOutcome)
    (cancelAt : Option Nat) (funcs : List FuncEntry) :
    (mainAttachPhase res cancelAt funcs).head? = some MainEvent.configWrite ∧
    (mainAttachPhase res cancelAt funcs).countP
        (fun ev => decide (ev = MainEvent.configWrite)) = 1 := by
  constructor
  · rfl
  · simp only [mainAttachPhase, List.countP_cons]
    have h0 : ((attachLoop res cancelAt funcs).trace.map MainEvent.attach).countP
        (fun ev => decide (ev = MainEvent.configWrite)) = 0 := by
      rw [List.countP_eq_zero]
      intro ev hev
      simp at hev
      obtain ⟨a, _, rfl⟩ := hev
      simp
    rw [h0]
    simp

/-- C8.  Every read reporting a nonzero lost-sample count is logged
with exactly that count and the loop continues: over the whole run the
logged loss list is one entry per loss report, its total equals the
sum of all reported counts, and the valid records around the loss
reports are still rendered (the consume loop has no fatal path at
all: its only exit is the closed read). -/
theorem c8_loss_accounting (eventSize : Nat) (cancel : Nat → Bool)
    (items : List ReadItem) :
    (consumeRun eventSize cancel items).lossLogs = lossLogsSpec items ∧
    (consumeRun eventSize cancel items).lossLogs.sum
        = ((processedItems items).map (fun it => it.record.lostSamples)).sum ∧
    (consumeRun eventSize cancel items).rendered
        = renderedSpec eventSize items := by
  have hchar := consumeAux_characterisation eventSize cancel items 0
    initConsumeResult
  rw [consumeRun, hchar]
  refine ⟨by simp [initConsumeResult], ?_, by simp [initConsumeResult]⟩
  simp [initConsumeResult, lossLogsSpec]
  exact filterMap_lost_sum (processedItems items)

/-- C9.  A raw record that does not match the fixed event layout is
logged and skipped: the decode-failure log count equals the number of
examined malformed records, nothing rendered is malformed, and the
rendered records are exactly the well-formed ones — so one malformed
record never halts processing of the records after it. -/
theorem c9_malformed_record_skipped (eventSize : Nat) (cancel : Nat → Bool)
    (items : List ReadItem) :
    (consumeRun eventSize cancel items).decodeLogs
        = decodeLogsSpec eventSize items ∧
    (∀ bs ∈ (consumeRun eventSize cancel items).rendered,
      decodeOk eventSize bs = true) ∧
    (consumeRun eventSize cancel items).rendered
        = renderedSpec eventSize items := by
  have hchar := consumeAux_characterisation eventSize cancel items 0
    initConsumeResult
  rw [consumeRun, hchar]
  refine ⟨by simp [initConsumeResult], ?_, by simp [initConsumeResult]⟩
  intro bs hbs
  simp [initConsumeResult] at hbs
  exact renderedSpec_mem_decodeOk eventSize items bs hbs

/-- Witness for C9 at a concrete run: with event size 2, the short
record `[9]` is counted as a decode failure while the valid record
`[1, 2]` around it is rendered and well-formed. -/
theorem c9_malformed_record_skipped_witness :
    decodeOk 2 [1, 2] = true ∧
    (consumeRun 2 (fun _ => false) itemsW).decodeLogs
        = decodeLogsSpec 2 itemsW :=
  ⟨(c9_malformed_record_skipped 2 (fun _ => false) itemsW).2.1 [1, 2]
     (by decide),
   (c9_malformed_record_skipped 2 (fun _ => false) itemsW).1⟩

/-- C10.  The post-render cancellation check never terminates the
consume loop: its `break` exits only the enclosing `select`, so both
select outcomes hand control to the next iteration, the whole run is
independent of when (or whether) cancellation fires, and the loop
exits exactly when a read returns the closed error. -/
theorem c10_post_render_break_exits_only_select (eventSize : Nat)
    (c c' : Nat → Bool) (items : List ReadItem) (d : Bool) :
    afterSelect (postRenderSelect d) = LoopCtl.nextIter ∧
    consumeRun eventSize c items = consumeRun eventSize c' items ∧
    (consumeRun eventSize c items).exitedClosed = hitsClosed items := by
  refine ⟨afterSelect_eq _, ?_, ?_⟩
  · rw [consumeRun, consumeRun, consumeAux_characterisation,
      consumeAux_characterisation]
  · rw [consumeRun, consumeAux_characterisation]
    simp [initConsumeResult]

end Pwru
